import Mathlib

/-!
Verification of the PullWeights MCP server (TypeScript source).
Strings are modelled as `List Char`, byte buffers as `List Nat`, and the
SHA-256 function as an abstract parameter `hash : List Nat → List Char`
(the code's `sha256` is an opaque pure function of the buffer).
Network and filesystem effects are modelled as explicit event traces.
-/

/-- Model of JavaScript `String.prototype.split(sep)` for a one-character
separator: splits into the list of (possibly empty) segments. -/
def splitOnChar (c : Char) : List Char → List (List Char)
  | [] => [[]]
  | x :: xs =>
    if x = c then [] :: splitOnChar c xs
    else
      match splitOnChar c xs with
      | [] => [[x]]
      | h :: t => (x :: h) :: t

/-- Parsed model reference, as returned by `parseModelRef` in
`src/typescript/src/index.ts` (fields `org`, `model`, `tag`). -/
structure ModelRef where
  org : List Char
  model : List Char
  tag : List Char
deriving DecidableEq

/-- Embedding of `parseModelRef` (src/typescript/src/index.ts lines 22-31):
`const [modelPart, tag = "latest"] = ref.split(":")` takes the segment before
the first `:` and the segment between the first and second `:` (defaulting to
`"latest"` only when no `:` occurs); then `modelPart.split("/")` must have
exactly two non-empty parts. The error carries the offending reference. -/
def parseModelRef (ref : List Char) : Except (List Char) ModelRef :=
  match splitOnChar '/' ((splitOnChar ':' ref).headD []) with
  | [a, b] =>
    if a = [] ∨ b = [] then Except.error ref
    else Except.ok ⟨a, b, (splitOnChar ':' ref).tail.headD ("latest".toList)⟩
  | _ => Except.error ref

/-- Portion of a reference string before the first `:` — this is the
`modelPart` that `parseModelRef` validates (`ref.split(":")[0]`). -/
def beforeColon (s : List Char) : List Char :=
  s.takeWhile (fun x => !(x == ':'))

/-- One file entry of a pull plan (`PullFile` in src/unnamed/part_000):
declared filename, download URL, declared SHA-256 digest, and size. -/
structure PullFile where
  filename : List Char
  download_url : List Char
  sha256 : List Char
  size_bytes : Nat
deriving DecidableEq

/-- Outcome of `fetch(file.download_url)`: either the response bytes or a
non-ok HTTP status. -/
inductive FetchResult where
  | ok (bytes : List Nat)
  | httpError (status : Nat)
deriving DecidableEq

/-- Observable effects of the pull loop: a network fetch of a URL, or a
write of bytes to a filesystem path. -/
inductive PullEvent where
  | fetch (url : List Char)
  | write (path : List Char) (bytes : List Nat)
deriving DecidableEq

/-- Errors thrown by the pull loop (src/typescript/src/index.ts lines
179-189): download failure with status, or checksum mismatch carrying the
filename, the expected digest and the actual digest, in that order. -/
inductive PullError where
  | downloadFailed (filename : List Char) (status : Nat)
  | checksumMismatch (filename expected actual : List Char)
deriving DecidableEq

/-- Embedding of the per-file pull loop (src/typescript/src/index.ts lines
176-193): for each plan file in order, fetch the bytes, compute the digest,
compare with the declared digest, and only then write to
`join(destDir, file.filename)`; any failure aborts the remaining files. -/
def pullFiles (hash : List Nat → List Char) (fetch : List Char → FetchResult)
    (destDir : List Char) : List PullFile → List PullEvent × Except PullError Unit
  | [] => ([], Except.ok ())
  | f :: rest =>
    match fetch f.download_url with
    | FetchResult.httpError s =>
      ([PullEvent.fetch f.download_url], Except.error (PullError.downloadFailed f.filename s))
    | FetchResult.ok bytes =>
      if hash bytes = f.sha256 then
        let r := pullFiles hash fetch destDir rest
        (PullEvent.fetch f.download_url ::
          PullEvent.write (destDir ++ '/' :: f.filename) bytes :: r.1, r.2)
      else
        ([PullEvent.fetch f.download_url],
         Except.error (PullError.checksumMismatch f.filename f.sha256 (hash bytes)))

/-- Events one plan file contributes when processing does not abort before
it: a fetch, followed by a write exactly when the digest matches. -/
def fileEvents (hash : List Nat → List Char) (fetch : List Char → FetchResult)
    (destDir : List Char) (f : PullFile) : List PullEvent :=
  match fetch f.download_url with
  | FetchResult.httpError _ => [PullEvent.fetch f.download_url]
  | FetchResult.ok bytes =>
    if hash bytes = f.sha256 then
      [PullEvent.fetch f.download_url, PullEvent.write (destDir ++ '/' :: f.filename) bytes]
    else [PullEvent.fetch f.download_url]

/-- A plan file whose served bytes hash to its declared digest. -/
def fileOk (hash : List Nat → List Char) (fetch : List Char → FetchResult)
    (f : PullFile) : Prop :=
  ∃ b, fetch f.download_url = FetchResult.ok b ∧ hash b = f.sha256

/-- File descriptor sent in the push init request body
(`{filename, size_bytes, sha256}` in src/typescript/src/index.ts lines 248-252). -/
structure FileDescriptor where
  filename : List Char
  size_bytes : Nat
  sha256 : List Char
deriving DecidableEq

/-- Local file record built in the hashing phase of `push`
(src/typescript/src/index.ts lines 229-241). -/
structure FileInfo where
  path : List Char
  filename : List Char
  size_bytes : Nat
  sha256 : List Char
  data : List Nat
deriving DecidableEq

/-- One entry of the init response's upload list (`PushInitUpload`). -/
structure UploadTarget where
  filename : List Char
  upload_url : List Char
deriving DecidableEq

/-- Init response (`PushInitResponse`): a push id and the upload list. -/
structure PushInit where
  push_id : List Char
  uploads : List UploadTarget
deriving DecidableEq

/-- Observable effects of a push: local file reads, the init call with its
file descriptors, blob uploads (PUT of bytes to a URL), and the finalize
call with its push id and tag. -/
inductive PushEvent where
  | readFile (path : List Char)
  | initCall (descriptors : List FileDescriptor)
  | uploadBlob (url : List Char) (data : List Nat)
  | finalizeCall (push_id : List Char) (tag : List Char)
deriving DecidableEq

/-- Errors thrown by `push`: invalid reference, missing explicit tag,
no local file matching an upload target, or a failed S3 upload. -/
inductive PushError where
  | invalidRef
  | explicitTagRequired
  | noLocalFile (filename : List Char)
  | transferError (url : List Char)
deriving DecidableEq

/-- Model of `filePath.split("/").pop()` — the basename used as the
uploaded filename (src/typescript/src/index.ts line 235). -/
def basename (p : List Char) : List Char :=
  (splitOnChar '/' p).getLastD []

/-- The record the hashing phase produces for one path: content read from
`fs`, basename, size, and digest of the content. -/
def mkFileInfo (hash : List Nat → List Char) (fs : List Char → List Nat)
    (p : List Char) : FileInfo :=
  ⟨p, basename p, (fs p).length, hash (fs p), fs p⟩

/-- Descriptor sent to init for one local file. -/
def descriptorOf (f : FileInfo) : FileDescriptor :=
  ⟨f.filename, f.size_bytes, f.sha256⟩

/-- Embedding of the upload phase (src/typescript/src/index.ts lines
256-268): for each upload target in order, find the first local file with
the same filename (`fileInfos.find(...)`); abort if none; otherwise PUT the
file's bytes to the target URL, aborting on a failed upload. -/
def uploadLoop (fileInfos : List FileInfo) (uploadOk : List Char → Bool) :
    List UploadTarget → List PushEvent × Except PushError Unit
  | [] => ([], Except.ok ())
  | u :: rest =>
    match fileInfos.find? (fun f => f.filename == u.filename) with
    | none => ([], Except.error (PushError.noLocalFile u.filename))
    | some f =>
      if uploadOk u.upload_url then
        let r := uploadLoop fileInfos uploadOk rest
        (PushEvent.uploadBlob u.upload_url f.data :: r.1, r.2)
      else
        ([PushEvent.uploadBlob u.upload_url f.data],
         Except.error (PushError.transferError u.upload_url))

/-- Bytes the upload phase would send for a target: the data of the first
matching local file (empty when none matches). -/
def matchedData (fileInfos : List FileInfo) (u : UploadTarget) : List Nat :=
  match fileInfos.find? (fun f => f.filename == u.filename) with
  | some f => f.data
  | none => []

/-- The push pipeline after the reference checks (src/typescript/src/index.ts
lines 229-274): hash all files, issue one init call, run the upload loop,
and issue finalize only when every upload succeeded. -/
def pushChecked (hash : List Nat → List Char) (fs : List Char → List Nat)
    (initFn : List FileDescriptor → PushInit) (uploadOk : List Char → Bool)
    (tag : List Char) (files : List (List Char)) :
    List PushEvent × Except PushError Unit :=
  let fileInfos := files.map (mkFileInfo hash fs)
  let descriptors := fileInfos.map descriptorOf
  let initRes := initFn descriptors
  let ul := uploadLoop fileInfos uploadOk initRes.uploads
  (files.map PushEvent.readFile ++
    PushEvent.initCall descriptors ::
      (ul.1 ++
        match ul.2 with
        | Except.ok _ => [PushEvent.finalizeCall initRes.push_id tag]
        | Except.error _ => []),
   match ul.2 with
   | Except.ok _ => Except.ok ()
   | Except.error e => Except.error e)

/-- Embedding of the `push` tool body (src/typescript/src/index.ts lines
222-274): parse the reference, reject a defaulted `latest` tag (tag equal to
"latest" with no `:` in the raw reference), then run the checked pipeline. -/
def push (hash : List Nat → List Char) (fs : List Char → List Nat)
    (initFn : List FileDescriptor → PushInit) (uploadOk : List Char → Bool)
    (model : List Char) (files : List (List Char)) :
    List PushEvent × Except PushError Unit :=
  match parseModelRef model with
  | Except.error _ => ([], Except.error PushError.invalidRef)
  | Except.ok ref =>
    if ref.tag = "latest".toList ∧ ':' ∉ model then
      ([], Except.error PushError.explicitTagRequired)
    else
      pushChecked hash fs initFn uploadOk ref.tag files

/-- Whether a trace event is the finalize call. -/
def isFinalizeEvent : PushEvent → Bool
  | PushEvent.finalizeCall _ _ => true
  | _ => false

/-- Whether the finalize call appears anywhere in a trace. -/
def hasFinalize (tr : List PushEvent) : Bool :=
  tr.any isFinalizeEvent

/-- Whether a trace event is a blob upload. -/
def isUploadEvent : PushEvent → Bool
  | PushEvent.uploadBlob _ _ => true
  | _ => false

/-- Number of blob uploads in a trace. -/
def countUploads (tr : List PushEvent) : Nat :=
  tr.countP isUploadEvent

/-- Logical routes of the Registry Client's HTTP requests
(`PullWeightsClient` in src/unnamed/part_000, lines 319-359). -/
inductive Route where
  | searchRoute (q fw sort : Option (List Char)) (page perPage : Option Nat)
  | modelsRoute (org : List Char)
  | orgsRoute
  | manifestRoute (org model tag : List Char)
  | tagsRoute (org model : List Char)
deriving DecidableEq

/-- An HTTP request the client sends; `withAuth` records whether the
Authorization bearer header was attached (true iff an API key is set,
see `headers()` in src/unnamed/part_000 lines 275-284). -/
inductive ClientEvent where
  | httpRequest (r : Route) (withAuth : Bool)
deriving DecidableEq

/-- Client-side errors: the local credential check, or a non-2xx status
surfaced by `request<T>`. -/
inductive ClientError where
  | authenticationRequired
  | requestError (status : Nat)
deriving DecidableEq

/-- Embedding of `requireAuth` (src/unnamed/part_000 lines 286-293):
throws when no API key is configured. -/
def requireAuth (apiKey : Option (List Char)) : Except ClientError Unit :=
  match apiKey with
  | none => Except.error ClientError.authenticationRequired
  | some _ => Except.ok ()

/-- Embedding of `request<T>`: issue the HTTP request (recording whether
the bearer header was attached) and surface a non-ok status as an error. -/
def clientRequest (apiKey : Option (List Char))
    (server : Route → Except Nat (List Char)) (r : Route) :
    List ClientEvent × Except ClientError (List Char) :=
  ([ClientEvent.httpRequest r apiKey.isSome],
   match server r with
   | Except.ok body => Except.ok body
   | Except.error status => Except.error (ClientError.requestError status))

/-- `search` (src/unnamed/part_000 lines 319-338): no local credential
check before the request. -/
def searchClient (apiKey : Option (List Char)) (server : Route → Except Nat (List Char))
    (q fw sort : Option (List Char)) (page perPage : Option Nat) :
    List ClientEvent × Except ClientError (List Char) :=
  clientRequest apiKey server (Route.searchRoute q fw sort page perPage)

/-- `listModels` (src/unnamed/part_000 lines 340-342): no local credential
check before the request. -/
def listModels (apiKey : Option (List Char)) (server : Route → Except Nat (List Char))
    (org : List Char) : List ClientEvent × Except ClientError (List Char) :=
  clientRequest apiKey server (Route.modelsRoute org)

/-- `listOrgs` (src/unnamed/part_000 lines 344-347): calls `requireAuth`
before issuing the request. -/
def listOrgs (apiKey : Option (List Char)) (server : Route → Except Nat (List Char)) :
    List ClientEvent × Except ClientError (List Char) :=
  match requireAuth apiKey with
  | Except.error e => ([], Except.error e)
  | Except.ok _ => clientRequest apiKey server Route.orgsRoute

/-- `getManifest` (src/unnamed/part_000 lines 349-353): no local credential
check before the request. -/
def getManifest (apiKey : Option (List Char)) (server : Route → Except Nat (List Char))
    (org model tag : List Char) : List ClientEvent × Except ClientError (List Char) :=
  clientRequest apiKey server (Route.manifestRoute org model tag)

/-- `listTags` (src/unnamed/part_000 lines 355-359): no local credential
check before the request. -/
def listTags (apiKey : Option (List Char)) (server : Route → Except Nat (List Char))
    (org model : List Char) : List ClientEvent × Except ClientError (List Char) :=
  clientRequest apiKey server (Route.tagsRoute org model)

/-- Optional visibility value of the update tool. -/
inductive Visibility where
  | pub
  | priv
deriving DecidableEq

/-- One provided field of the update request body
(src/unnamed/part_001 lines 174-179). -/
inductive BodyField where
  | description (v : List Char)
  | visibility (v : Visibility)
  | framework (v : List Char)
  | license (v : List Char)
  | tags (v : List (List Char))
deriving DecidableEq

/-- Arguments of the `update` tool (src/unnamed/part_001 lines 160-166). -/
structure UpdateArgs where
  model : List Char
  description : Option (List Char)
  visibility : Option Visibility
  framework : Option (List Char)
  license : Option (List Char)
  tags : Option (List (List Char))
deriving DecidableEq

/-- The update request body: exactly the provided optional fields, in the
order the code assigns them. -/
def bodyOf (args : UpdateArgs) : List BodyField :=
  (args.description.map BodyField.description).toList ++
  (args.visibility.map BodyField.visibility).toList ++
  (args.framework.map BodyField.framework).toList ++
  (args.license.map BodyField.license).toList ++
  (args.tags.map BodyField.tags).toList

/-- Network effect of the update tool: the PATCH-style request with the
parsed org/name and the body fields. -/
inductive UpdateEvent where
  | updateRequest (org name : List Char) (body : List BodyField)
deriving DecidableEq

/-- Errors of the update tool: malformed reference, or a non-2xx response. -/
inductive UpdateError where
  | invalidRef
  | requestError (status : Nat)
deriving DecidableEq

/-- The informational text returned when no field was provided
(src/unnamed/part_001 line 182). -/
def noFieldsMsg : List Char :=
  "No fields to update. Provide at least one of: description, visibility, framework, license, tags.".toList

/-- Embedding of the `update` tool body (src/unnamed/part_001 lines
168-187): validate the `org/model` reference, build the body from the
provided fields, return the informational message when the body is empty
(no request is made), otherwise send the request. -/
def updateTool (args : UpdateArgs) (server : Except Nat (List Char)) :
    List UpdateEvent × Except UpdateError (List Char) :=
  match splitOnChar '/' args.model with
  | [a, b] =>
    if a = [] ∨ b = [] then ([], Except.error UpdateError.invalidRef)
    else if bodyOf args = [] then ([], Except.ok noFieldsMsg)
    else
      ([UpdateEvent.updateRequest a b (bodyOf args)],
       match server with
       | Except.ok msg => Except.ok msg
       | Except.error status => Except.error (UpdateError.requestError status))
  | _ => ([], Except.error UpdateError.invalidRef)

/-- Concrete hash for witnesses: constant digest. -/
def hash0 : List Nat → List Char := fun _ => ['h']

/-- Concrete filesystem for witnesses: every path holds the byte 0. -/
def fs0 : List Char → List Nat := fun _ => [0]

/-- Concrete registry init behavior for witnesses: one upload target per
requested descriptor, URL formed from the filename. -/
def init0 : List FileDescriptor → PushInit :=
  fun ds => ⟨['p'], ds.map (fun d => ⟨d.filename, 'u' :: d.filename⟩)⟩

/-- Concrete blob-upload outcome for witnesses: always succeeds. -/
def ok0 : List Char → Bool := fun _ => true

/-- Concrete blob-upload outcome for witnesses: always fails. -/
def okFail : List Char → Bool := fun _ => false

/-- Descriptors the push sends to init for a list of local paths. -/
def pushDescriptors (hash : List Nat → List Char) (fs : List Char → List Nat)
    (files : List (List Char)) : List FileDescriptor :=
  (files.map (mkFileInfo hash fs)).map descriptorOf

/-- Concrete hash for the pull witness: digest `g` for the byte string
`[1]`, digest `x` otherwise. -/
def hashW : List Nat → List Char := fun b => if b = [1] then ['g'] else ['x']

/-- Concrete fetch for the pull witness: URL `u1` serves `[1]`, anything
else serves `[2]`. -/
def fetchW : List Char → FetchResult :=
  fun url => if url = ['u', '1'] then FetchResult.ok [1] else FetchResult.ok [2]

/-- Pull witness plan file whose served bytes match its declared digest. -/
def gfile : PullFile := ⟨['f', '1'], ['u', '1'], ['g'], 1⟩

/-- Pull witness plan file whose served bytes hash to a different digest. -/
def badfile : PullFile := ⟨['f', '2'], ['u', '2'], ['g'], 1⟩

/-- Registry init behavior that omits the second requested file from its
upload list. -/
def initOmit : List FileDescriptor → PushInit :=
  fun _ => ⟨['p'], [⟨"f1".toList, "u1".toList⟩]⟩

/-- Registry init behavior returning a target that matches no local file. -/
def initBad : List FileDescriptor → PushInit :=
  fun _ => ⟨['p'], [⟨"zz".toList, "u9".toList⟩]⟩

/-- Registry init behavior for the collision witness: two upload targets
both named by the shared basename `x`. -/
def init2 : List FileDescriptor → PushInit :=
  fun _ => ⟨['p'], [⟨"x".toList, "u1".toList⟩, ⟨"x".toList, "u2".toList⟩]⟩

theorem splitOnChar_ne_nil (c : Char) (l : List Char) : splitOnChar c l ≠ [] := by
  cases l with
  | nil => simp [splitOnChar]
  | cons x xs =>
    simp only [splitOnChar]
    split
    · simp
    · split <;> simp

theorem splitOnChar_of_not_mem {c : Char} {l : List Char} (h : c ∉ l) :
    splitOnChar c l = [l] := by
  induction l with
  | nil => rfl
  | cons x xs ih =>
    simp only [List.mem_cons, not_or] at h
    simp only [splitOnChar]
    rw [if_neg (fun hxc => h.1 hxc.symm), ih h.2]

theorem splitOnChar_append_cons {c : Char} {a : List Char} (b : List Char) (h : c ∉ a) :
    splitOnChar c (a ++ c :: b) = a :: splitOnChar c b := by
  induction a with
  | nil => simp [splitOnChar]
  | cons x xs ih =>
    simp only [List.mem_cons, not_or] at h
    have hstep : (x :: xs) ++ c :: b = x :: (xs ++ c :: b) := rfl
    rw [hstep]
    simp only [splitOnChar]
    rw [if_neg (fun hxc => h.1 hxc.symm), ih h.2]

theorem splitOnChar_eq_single {c : Char} {l y : List Char}
    (h : splitOnChar c l = [y]) : l = y ∧ c ∉ l := by
  induction l generalizing y with
  | nil =>
    simp only [splitOnChar, List.cons.injEq] at h
    exact ⟨h.1, by simp⟩
  | cons x xs ih =>
    simp only [splitOnChar] at h
    by_cases hxc : x = c
    · rw [if_pos hxc] at h
      simp only [List.cons.injEq] at h
      exact absurd h.2 (splitOnChar_ne_nil c xs)
    · rw [if_neg hxc] at h
      cases heq : splitOnChar c xs with
      | nil => exact absurd heq (splitOnChar_ne_nil c xs)
      | cons h1 t =>
        rw [heq] at h
        simp only [List.cons.injEq] at h
        obtain ⟨hy, ht⟩ := h
        subst ht
        obtain ⟨hxs, hnc⟩ := ih heq
        constructor
        · rw [hxs, ← hy]
        · simp only [List.mem_cons, not_or]
          exact ⟨fun hc => hxc hc.symm, hnc⟩

theorem splitOnChar_eq_pair {c : Char} {m a b : List Char}
    (h : splitOnChar c m = [a, b]) : m = a ++ c :: b ∧ c ∉ a ∧ c ∉ b := by
  induction m generalizing a with
  | nil => simp [splitOnChar] at h
  | cons x xs ih =>
    simp only [splitOnChar] at h
    by_cases hxc : x = c
    · rw [if_pos hxc] at h
      simp only [List.cons.injEq] at h
      obtain ⟨ha, hsp⟩ := h
      obtain ⟨hxb, hnb⟩ := splitOnChar_eq_single hsp
      subst hxb
      refine ⟨?_, ?_, hnb⟩
      · rw [← ha, hxc]
        rfl
      · rw [← ha]
        simp
    · rw [if_neg hxc] at h
      cases heq : splitOnChar c xs with
      | nil => exact absurd heq (splitOnChar_ne_nil c xs)
      | cons h1 t =>
        rw [heq] at h
        simp only [List.cons.injEq] at h
        obtain ⟨ha, ht⟩ := h
        rw [ht] at heq
        obtain ⟨hxs, hc1, hcb⟩ := ih heq
        refine ⟨?_, ?_, hcb⟩
        · rw [← ha, hxs]
          rfl
        · rw [← ha]
          simp only [List.mem_cons, not_or]
          exact ⟨fun hc => hxc hc.symm, hc1⟩

theorem splitOnChar_headD (c : Char) (l : List Char) :
    (splitOnChar c l).headD [] = l.takeWhile (fun x => !(x == c)) := by
  induction l with
  | nil => rfl
  | cons x xs ih =>
    by_cases hxc : x = c
    · subst hxc
      simp [splitOnChar, List.takeWhile]
    · have hb : (x == c) = false := by
        simp [hxc]
      simp only [splitOnChar, if_neg hxc, List.takeWhile, hb, Bool.not_false]
      rcases heq : splitOnChar c xs with _ | ⟨h1, t⟩
      · exact absurd heq (splitOnChar_ne_nil c xs)
      · rw [heq] at ih
        simp only [List.headD] at ih ⊢
        rw [ih]

theorem parseModelRef_tagged {org name tag : List Char}
    (horg : org ≠ []) (hname : name ≠ [])
    (ho1 : '/' ∉ org) (hn1 : '/' ∉ name)
    (ho2 : ':' ∉ org) (hn2 : ':' ∉ name) (ht : ':' ∉ tag) :
    parseModelRef (org ++ '/' :: (name ++ ':' :: tag)) = Except.ok ⟨org, name, tag⟩ := by
  have hm : (':' : Char) ∉ org ++ '/' :: name := by
    intro hmem
    rcases List.mem_append.1 hmem with h | h
    · exact ho2 h
    · rcases List.mem_cons.1 h with h | h
      · exact absurd h (by decide)
      · exact hn2 h
  have hshape : org ++ '/' :: (name ++ ':' :: tag) = (org ++ '/' :: name) ++ ':' :: tag := by
    simp [List.append_assoc]
  have hsplit1 : splitOnChar ':' (org ++ '/' :: (name ++ ':' :: tag))
      = (org ++ '/' :: name) :: splitOnChar ':' tag := by
    rw [hshape]
    exact splitOnChar_append_cons tag hm
  have hsplit2 : splitOnChar '/' (org ++ '/' :: name) = [org, name] := by
    rw [splitOnChar_append_cons name ho1, splitOnChar_of_not_mem hn1]
  unfold parseModelRef
  rw [hsplit1, splitOnChar_of_not_mem ht]
  simp only [List.headD, List.tail]
  rw [hsplit2]
  simp [horg, hname]

theorem parseModelRef_untagged {org name : List Char}
    (horg : org ≠ []) (hname : name ≠ [])
    (ho1 : '/' ∉ org) (hn1 : '/' ∉ name)
    (ho2 : ':' ∉ org) (hn2 : ':' ∉ name) :
    parseModelRef (org ++ '/' :: name) = Except.ok ⟨org, name, "latest".toList⟩ := by
  have hm : (':' : Char) ∉ org ++ '/' :: name := by
    intro hmem
    rcases List.mem_append.1 hmem with h | h
    · exact ho2 h
    · rcases List.mem_cons.1 h with h | h
      · exact absurd h (by decide)
      · exact hn2 h
  have hsplit1 : splitOnChar ':' (org ++ '/' :: name) = [org ++ '/' :: name] :=
    splitOnChar_of_not_mem hm
  have hsplit2 : splitOnChar '/' (org ++ '/' :: name) = [org, name] := by
    rw [splitOnChar_append_cons name ho1, splitOnChar_of_not_mem hn1]
  unfold parseModelRef
  rw [hsplit1]
  simp only [List.headD, List.tail]
  rw [hsplit2]
  simp [horg, hname]

theorem parseModelRef_error_of_bad_shape {s : List Char}
    (h : ¬ ∃ a b : List Char,
      beforeColon s = a ++ '/' :: b ∧ a ≠ [] ∧ b ≠ [] ∧ '/' ∉ a ∧ '/' ∉ b) :
    parseModelRef s = Except.error s := by
  have hhead : (splitOnChar ':' s).headD [] = beforeColon s :=
    splitOnChar_headD ':' s
  unfold parseModelRef
  cases hsp : splitOnChar '/' ((splitOnChar ':' s).headD []) with
  | nil => rfl
  | cons a t =>
    cases t with
    | nil => rfl
    | cons b t2 =>
      cases t2 with
      | nil =>
        by_cases hempty : a = [] ∨ b = []
        · simp [hempty]
        · push_neg at hempty
          exfalso
          rw [hhead] at hsp
          obtain ⟨hdec, hna, hnb⟩ := splitOnChar_eq_pair hsp
          exact h ⟨a, b, hdec, hempty.1, hempty.2, hna, hnb⟩
      | cons c3 t3 => rfl

theorem parseModelRef_ok_of_good_shape {s a b : List Char}
    (hdec : beforeColon s = a ++ '/' :: b) (ha : a ≠ []) (hb : b ≠ [])
    (hna : '/' ∉ a) (hnb : '/' ∉ b) :
    parseModelRef s =
      Except.ok ⟨a, b, (splitOnChar ':' s).tail.headD ("latest".toList)⟩ := by
  have hhead : (splitOnChar ':' s).headD [] = beforeColon s :=
    splitOnChar_headD ':' s
  have hsp : splitOnChar '/' ((splitOnChar ':' s).headD []) = [a, b] := by
    rw [hhead, hdec, splitOnChar_append_cons b hna, splitOnChar_of_not_mem hnb]
  unfold parseModelRef
  rw [hsp]
  exact if_neg (by simp [ha, hb])

theorem pullFiles_success (hash : List Nat → List Char)
    (fetch : List Char → FetchResult) (destDir : List Char)
    (plan : List PullFile) (h : ∀ f ∈ plan, fileOk hash fetch f) :
    pullFiles hash fetch destDir plan =
      (plan.flatMap (fileEvents hash fetch destDir), Except.ok ()) := by
  induction plan with
  | nil => rfl
  | cons f rest ih =>
    obtain ⟨b, hb, hhash⟩ := h f (List.mem_cons_self f rest)
    have hrest := ih (fun g hg => h g (List.mem_cons_of_mem f hg))
    simp only [pullFiles, fileEvents, hb, if_pos hhash, hrest, List.flatMap_cons]
    simp [fileEvents, hb, if_pos hhash]

theorem uploadLoop_success (fileInfos : List FileInfo) (uploadOk : List Char → Bool)
    (uploads : List UploadTarget)
    (hmatch : ∀ u ∈ uploads, (fileInfos.find? (fun f => f.filename == u.filename)).isSome)
    (hok : ∀ u ∈ uploads, uploadOk u.upload_url = true) :
    uploadLoop fileInfos uploadOk uploads =
      (uploads.map (fun u => PushEvent.uploadBlob u.upload_url (matchedData fileInfos u)),
       Except.ok ()) := by
  induction uploads with
  | nil => rfl
  | cons u rest ih =>
    have hu := hmatch u (List.mem_cons_self u rest)
    cases hfind : fileInfos.find? (fun f => f.filename == u.filename) with
    | none => rw [hfind] at hu; simp at hu
    | some f =>
      have hrest := ih (fun v hv => hmatch v (List.mem_cons_of_mem u hv))
        (fun v hv => hok v (List.mem_cons_of_mem u hv))
      simp only [uploadLoop, hfind, hok u (List.mem_cons_self u rest), if_pos, hrest,
        List.map_cons, matchedData]

theorem uploadLoop_no_finalize (fileInfos : List FileInfo) (uploadOk : List Char → Bool)
    (uploads : List UploadTarget) :
    hasFinalize (uploadLoop fileInfos uploadOk uploads).1 = false := by
  induction uploads with
  | nil => rfl
  | cons u rest ih =>
    simp only [uploadLoop]
    cases hfind : fileInfos.find? (fun f => f.filename == u.filename) with
    | none => rfl
    | some f =>
      by_cases hup : uploadOk u.upload_url = true
      · simp only [hup, if_pos]
        simp only [hasFinalize, List.any_cons, isFinalizeEvent, Bool.false_or]
        exact ih
      · simp only [Bool.not_eq_true] at hup
        simp [hup, hasFinalize, isFinalizeEvent]

theorem uploadLoop_error_of_fail (fileInfos : List FileInfo) (uploadOk : List Char → Bool)
    (uploads : List UploadTarget)
    (h : ∃ u ∈ uploads, uploadOk u.upload_url = false) :
    ∃ e, (uploadLoop fileInfos uploadOk uploads).2 = Except.error e := by
  induction uploads with
  | nil => simp at h
  | cons u rest ih =>
    simp only [uploadLoop]
    cases hfind : fileInfos.find? (fun f => f.filename == u.filename) with
    | none => exact ⟨PushError.noLocalFile u.filename, rfl⟩
    | some f =>
      by_cases hup : uploadOk u.upload_url = true
      · have hrest : ∃ v ∈ rest, uploadOk v.upload_url = false := by
          obtain ⟨v, hv, hvfail⟩ := h
          rcases List.mem_cons.1 hv with rfl | hv2
          · rw [hup] at hvfail; simp at hvfail
          · exact ⟨v, hv2, hvfail⟩
        obtain ⟨e, he⟩ := ih hrest
        exact ⟨e, by simp only [hup, if_pos]; exact he⟩
      · simp only [Bool.not_eq_true] at hup
        exact ⟨PushError.transferError u.upload_url, by simp [hup]⟩

theorem uploadLoop_unmatched (fileInfos : List FileInfo) (uploadOk : List Char → Bool)
    (good : List UploadTarget) (bad : UploadTarget) (rest : List UploadTarget)
    (hgood : ∀ u ∈ good, (fileInfos.find? (fun f => f.filename == u.filename)).isSome)
    (hgok : ∀ u ∈ good, uploadOk u.upload_url = true)
    (hbad : fileInfos.find? (fun f => f.filename == bad.filename) = none) :
    (uploadLoop fileInfos uploadOk (good ++ bad :: rest)).2 =
      Except.error (PushError.noLocalFile bad.filename) := by
  induction good with
  | nil => simp [uploadLoop, hbad]
  | cons u g ih =>
    have hu := hgood u (List.mem_cons_self u g)
    cases hfind : fileInfos.find? (fun f => f.filename == u.filename) with
    | none => rw [hfind] at hu; simp at hu
    | some f =>
      have hrest := ih (fun v hv => hgood v (List.mem_cons_of_mem u hv))
        (fun v hv => hgok v (List.mem_cons_of_mem u hv))
      have hstep : (u :: g) ++ bad :: rest = u :: (g ++ bad :: rest) := rfl
      rw [hstep]
      simp only [uploadLoop, hfind, hgok u (List.mem_cons_self u g), if_pos]
      exact hrest

theorem find?_mkFileInfo (hash : List Nat → List Char) (fs : List Char → List Nat)
    (files : List (List Char)) (n : List Char) :
    (files.map (mkFileInfo hash fs)).find? (fun f => f.filename == n) =
      (files.find? (fun p => basename p == n)).map (mkFileInfo hash fs) := by
  rw [List.find?_map]
  rfl

theorem reads_no_finalize (files : List (List Char)) :
    (files.map PushEvent.readFile).any isFinalizeEvent = false := by
  induction files with
  | nil => rfl
  | cons p ps ih =>
    have h1 : isFinalizeEvent (PushEvent.readFile p) = false := rfl
    simp [List.any_cons, h1, ih]

theorem pushChecked_success (hash : List Nat → List Char) (fs : List Char → List Nat)
    (initFn : List FileDescriptor → PushInit) (uploadOk : List Char → Bool)
    (tag : List Char) (files : List (List Char))
    (hmatch : ∀ u ∈ (initFn ((files.map (mkFileInfo hash fs)).map descriptorOf)).uploads,
      ((files.map (mkFileInfo hash fs)).find? (fun f => f.filename == u.filename)).isSome)
    (hok : ∀ u ∈ (initFn ((files.map (mkFileInfo hash fs)).map descriptorOf)).uploads,
      uploadOk u.upload_url = true) :
    pushChecked hash fs initFn uploadOk tag files =
      (files.map PushEvent.readFile ++
        PushEvent.initCall ((files.map (mkFileInfo hash fs)).map descriptorOf) ::
          ((initFn ((files.map (mkFileInfo hash fs)).map descriptorOf)).uploads.map
              (fun u => PushEvent.uploadBlob u.upload_url
                (matchedData (files.map (mkFileInfo hash fs)) u)) ++
            [PushEvent.finalizeCall
              (initFn ((files.map (mkFileInfo hash fs)).map descriptorOf)).push_id tag]),
       Except.ok ()) := by
  have h := uploadLoop_success (files.map (mkFileInfo hash fs)) uploadOk
    (initFn ((files.map (mkFileInfo hash fs)).map descriptorOf)).uploads hmatch hok
  simp only [pushChecked]
  rw [h]

theorem pushChecked_error_shape (hash : List Nat → List Char) (fs : List Char → List Nat)
    (initFn : List FileDescriptor → PushInit) (uploadOk : List Char → Bool)
    (tag : List Char) (files : List (List Char)) (e : PushError)
    (he : (uploadLoop (files.map (mkFileInfo hash fs)) uploadOk
      (initFn ((files.map (mkFileInfo hash fs)).map descriptorOf)).uploads).2 =
        Except.error e) :
    hasFinalize (pushChecked hash fs initFn uploadOk tag files).1 = false ∧
    (pushChecked hash fs initFn uploadOk tag files).2 = Except.error e := by
  simp only [pushChecked]
  rw [he]
  constructor
  · simp only [hasFinalize, List.any_append, List.any_cons, List.append_nil]
    rw [reads_no_finalize files]
    have h1 : isFinalizeEvent
        (PushEvent.initCall ((files.map (mkFileInfo hash fs)).map descriptorOf)) = false := rfl
    rw [h1]
    have h2 := uploadLoop_no_finalize (files.map (mkFileInfo hash fs)) uploadOk
      (initFn ((files.map (mkFileInfo hash fs)).map descriptorOf)).uploads
    simp only [hasFinalize] at h2
    rw [h2]
    rfl
  · rfl

theorem push_tagged (hash : List Nat → List Char) (fs : List Char → List Nat)
    (initFn : List FileDescriptor → PushInit) (uploadOk : List Char → Bool)
    {org name tag : List Char}
    (horg : org ≠ []) (hname : name ≠ [])
    (ho1 : '/' ∉ org) (hn1 : '/' ∉ name)
    (ho2 : ':' ∉ org) (hn2 : ':' ∉ name) (ht : ':' ∉ tag)
    (files : List (List Char)) :
    push hash fs initFn uploadOk (org ++ '/' :: (name ++ ':' :: tag)) files =
      pushChecked hash fs initFn uploadOk tag files := by
  unfold push
  rw [parseModelRef_tagged horg hname ho1 hn1 ho2 hn2 ht]
  have hcolon : (':' : Char) ∈ org ++ '/' :: (name ++ ':' :: tag) := by
    apply List.mem_append_right
    apply List.mem_cons_of_mem
    apply List.mem_append_right
    exact List.mem_cons_self ':' tag
  exact if_neg (fun hand => hand.2 hcolon)

theorem parseModelRef_no_colon_tag {model : List Char} {ref : ModelRef}
    (h : ':' ∉ model) (hp : parseModelRef model = Except.ok ref) :
    ref.tag = "latest".toList := by
  unfold parseModelRef at hp
  rw [splitOnChar_of_not_mem h] at hp
  simp only [List.headD_cons, List.tail_cons, List.headD_nil] at hp
  cases hsp : splitOnChar '/' model with
  | nil =>
    rw [hsp] at hp
    exact Except.noConfusion hp
  | cons a t =>
    cases t with
    | nil =>
      rw [hsp] at hp
      exact Except.noConfusion hp
    | cons b t2 =>
      cases t2 with
      | nil =>
        rw [hsp] at hp
        replace hp : (if a = [] ∨ b = [] then Except.error model
            else Except.ok (⟨a, b, "latest".toList⟩ : ModelRef)) = Except.ok ref := hp
        by_cases hempty : a = [] ∨ b = []
        · rw [if_pos hempty] at hp
          exact Except.noConfusion hp
        · rw [if_neg hempty] at hp
          cases hp
          rfl
      | cons c3 t3 =>
        rw [hsp] at hp
        exact Except.noConfusion hp

/-- C5: parsing `"acme/resnet"` yields org `acme`, name `resnet`, tag
`latest`; parsing `"acme/resnet:v2"` yields tag `v2`; and parsing fails
exactly when the portion of the string before the first `:` is not
exactly one `/` separating two non-empty segments: an ill-shaped portion
gives the validation error, while a well-shaped portion `a ++ "/" ++ b`
always parses with org `a`, name `b`, and whatever stands between the
first and second `:` (slashes included) as the tag, `"latest"` when no
`:` occurs. (Amended: the claim's failure condition holds of that
portion, not of the whole string — see the counterexample, where a
second `/` in the tag is accepted.) -/
theorem parse_examples_and_failure :
    parseModelRef "acme/resnet".toList =
      Except.ok ⟨"acme".toList, "resnet".toList, "latest".toList⟩ ∧
    parseModelRef "acme/resnet:v2".toList =
      Except.ok ⟨"acme".toList, "resnet".toList, "v2".toList⟩ ∧
    ∀ s : List Char,
      ((¬ ∃ a b : List Char,
          beforeColon s = a ++ '/' :: b ∧ a ≠ [] ∧ b ≠ [] ∧ '/' ∉ a ∧ '/' ∉ b) →
        parseModelRef s = Except.error s) ∧
      (∀ a b : List Char,
        beforeColon s = a ++ '/' :: b → a ≠ [] → b ≠ [] → '/' ∉ a → '/' ∉ b →
        parseModelRef s =
          Except.ok ⟨a, b, (splitOnChar ':' s).tail.headD ("latest".toList)⟩) := by
  refine ⟨by rfl, by rfl, ?_⟩
  intro s
  constructor
  · intro hs
    exact parseModelRef_error_of_bad_shape hs
  · intro a b hdec ha hb hna hnb
    exact parseModelRef_ok_of_good_shape hdec ha hb hna hnb

/-- C5 witness: the claim's own example `"acme"` (no slash) fails, and a
well-shaped pre-colon portion parses even with a slash in the tag. -/
theorem parse_examples_and_failure_witness :
    parseModelRef "acme".toList = Except.error "acme".toList ∧
    parseModelRef "x/y:c/d".toList =
      Except.ok ⟨"x".toList, "y".toList, "c/d".toList⟩ := by
  constructor
  · apply (parse_examples_and_failure.2.2 "acme".toList).1
    rintro ⟨a, b, heq, -, -, -, -⟩
    have hmem : ('/' : Char) ∈ beforeColon "acme".toList := by
      rw [heq]
      exact List.mem_append_right a (List.mem_cons_self '/' b)
    exact absurd hmem (by decide)
  · exact (parse_examples_and_failure.2.2 "x/y:c/d".toList).2 "x".toList "y".toList
      (by decide) (by decide) (by decide) (by decide) (by decide)

/-- C5 counterexample: `"a/b:c/d"` does not have exactly one `/` (it has
two), yet `parseModelRef` accepts it with tag `"c/d"` instead of failing
with a validation error as the claim requires. -/
theorem parse_two_slash_counterexample :
    "a/b:c/d".toList.count '/' = 2 ∧
    parseModelRef "a/b:c/d".toList =
      Except.ok ⟨"a".toList, "b".toList, "c/d".toList⟩ := by
  exact ⟨by decide, by rfl⟩

/-- C6 (amended): for every reference built as `org/name` or
`org/name:tag` from non-empty `org` and `name` that contain neither `/`
nor `:`, with `:` (and `/`) not occurring in the tag, parsing returns
exactly the original org and name, and the explicit tag or `"latest"`
when the tag was omitted. (Amended from the bare grammar-validity
hypothesis: segments containing `:` break the property — see the
counterexample.) -/
theorem parse_roundtrip {org name tag : List Char}
    (horg : org ≠ []) (hname : name ≠ [])
    (ho1 : '/' ∉ org) (hn1 : '/' ∉ name)
    (ho2 : ':' ∉ org) (hn2 : ':' ∉ name)
    (ht1 : ':' ∉ tag) (ht2 : '/' ∉ tag) :
    parseModelRef (org ++ '/' :: name) =
      Except.ok ⟨org, name, "latest".toList⟩ ∧
    parseModelRef (org ++ '/' :: (name ++ ':' :: tag)) =
      Except.ok ⟨org, name, tag⟩ := by
  constructor
  · exact parseModelRef_untagged horg hname ho1 hn1 ho2 hn2
  · exact parseModelRef_tagged horg hname ho1 hn1 ho2 hn2 ht1

/-- C6 witness: round trip at `acme/resnet` and `acme/resnet:v2`. -/
theorem parse_roundtrip_witness :
    parseModelRef ("acme".toList ++ '/' :: "resnet".toList) =
      Except.ok ⟨"acme".toList, "resnet".toList, "latest".toList⟩ ∧
    parseModelRef ("acme".toList ++ '/' :: ("resnet".toList ++ ':' :: "v2".toList)) =
      Except.ok ⟨"acme".toList, "resnet".toList, "v2".toList⟩ :=
  parse_roundtrip (by decide) (by decide) (by decide) (by decide)
    (by decide) (by decide) (by decide) (by decide)

/-- C6 counterexample: `"a:b/c"` is a valid reference under the claim's
grammar reading (org `"a:b"`, name `"c"`, both non-empty, exactly one `/`
in the whole string, tag omitted), yet parsing fails, so the round trip
does not return the original org and name. -/
theorem parse_roundtrip_counterexample :
    "a:b/c".toList = "a:b".toList ++ '/' :: "c".toList ∧
    "a:b".toList ≠ [] ∧ "c".toList ≠ [] ∧
    "a:b/c".toList.count '/' = 1 ∧
    parseModelRef "a:b/c".toList = Except.error "a:b/c".toList := by
  exact ⟨by rfl, by decide, by decide, by decide, by rfl⟩

/-- C7: with no API key configured, `listOrgs` fails with the local
authentication error and sends no HTTP request, while `search`,
`listModels`, `getManifest` and `listTags` each send their request (with
no bearer header) without any local credential check. -/
theorem client_auth_checks (server : Route → Except Nat (List Char))
    (q fw sort : Option (List Char)) (page perPage : Option Nat)
    (org model tag : List Char) :
    listOrgs none server = ([], Except.error ClientError.authenticationRequired) ∧
    (searchClient none server q fw sort page perPage).1 =
      [ClientEvent.httpRequest (Route.searchRoute q fw sort page perPage) false] ∧
    (listModels none server org).1 =
      [ClientEvent.httpRequest (Route.modelsRoute org) false] ∧
    (getManifest none server org model tag).1 =
      [ClientEvent.httpRequest (Route.manifestRoute org model tag) false] ∧
    (listTags none server org model).1 =
      [ClientEvent.httpRequest (Route.tagsRoute org model) false] :=
  ⟨rfl, rfl, rfl, rfl, rfl⟩

/-- C8 (amended): an update with a well-formed `org/name` reference and no
optional field provided does not fail: it makes no network request and
returns the informational "No fields to update" message as a normal (ok)
result, rather than throwing a validation error. -/
theorem update_empty_payload_info (server : Except Nat (List Char))
    {org name : List Char} (horg : org ≠ []) (hname : name ≠ [])
    (ho : '/' ∉ org) (hn : '/' ∉ name) :
    updateTool ⟨org ++ '/' :: name, none, none, none, none, none⟩ server =
      ([], Except.ok noFieldsMsg) := by
  have hsplit : splitOnChar '/' (org ++ '/' :: name) = [org, name] := by
    rw [splitOnChar_append_cons name ho, splitOnChar_of_not_mem hn]
  have hno : ¬(org = [] ∨ name = []) := by simp [horg, hname]
  have h1 : (if org = [] ∨ name = [] then
        (([] : List UpdateEvent), Except.error UpdateError.invalidRef)
      else if bodyOf ⟨org ++ '/' :: name, none, none, none, none, none⟩ = []
        then (([] : List UpdateEvent), Except.ok noFieldsMsg)
        else ([UpdateEvent.updateRequest org name
                (bodyOf ⟨org ++ '/' :: name, none, none, none, none, none⟩)],
          match server with
          | Except.ok msg => Except.ok msg
          | Except.error status => Except.error (UpdateError.requestError status)))
      = ([], Except.ok noFieldsMsg) := by
    rw [if_neg hno,
      if_pos (show bodyOf ⟨org ++ '/' :: name, none, none, none, none, none⟩ = [] from rfl)]
  unfold updateTool
  rw [hsplit]
  exact h1

/-- C8 witness: the amended behavior at `a/b` with every field omitted. -/
theorem update_empty_payload_info_witness :
    updateTool ⟨"a".toList ++ '/' :: "b".toList, none, none, none, none, none⟩
        (Except.ok ['m']) = ([], Except.ok noFieldsMsg) :=
  update_empty_payload_info (Except.ok ['m']) (by decide) (by decide)
    (by decide) (by decide)

/-- C8 counterexample: at the concrete empty-payload input the update tool
returns an ok informational message and an empty request trace — it does
not fail with a validation error as the claim states. -/
theorem update_empty_payload_counterexample :
    updateTool ⟨"a/b".toList, none, none, none, none, none⟩ (Except.ok ['m']) =
      ([], Except.ok noFieldsMsg) := by
  rfl

/-- C4: a push whose model reference contains no `:` is rejected with an
error and an empty effect trace — no file is read or hashed and no network
call (init, upload, finalize) is made. -/
theorem push_no_colon_rejected (hash : List Nat → List Char) (fs : List Char → List Nat)
    (initFn : List FileDescriptor → PushInit) (uploadOk : List Char → Bool)
    (model : List Char) (files : List (List Char)) (h : ':' ∉ model) :
    (push hash fs initFn uploadOk model files).1 = [] ∧
    ((push hash fs initFn uploadOk model files).2 = Except.error PushError.invalidRef ∨
     (push hash fs initFn uploadOk model files).2 = Except.error PushError.explicitTagRequired) := by
  cases hp : parseModelRef model with
  | error msg =>
    have hq : push hash fs initFn uploadOk model files =
        ([], Except.error PushError.invalidRef) := by
      unfold push
      rw [hp]
    rw [hq]
    exact ⟨rfl, Or.inl rfl⟩
  | ok ref =>
    have htag := parseModelRef_no_colon_tag h hp
    have hq : push hash fs initFn uploadOk model files =
        ([], Except.error PushError.explicitTagRequired) := by
      unfold push
      rw [hp]
      exact if_pos ⟨htag, h⟩
    rw [hq]
    exact ⟨rfl, Or.inr rfl⟩

/-- C4 witness: pushing to `"acme/resnet"` (no tag) is rejected with an
empty trace. -/
theorem push_no_colon_rejected_witness :
    (push hash0 fs0 init0 ok0 "acme/resnet".toList ["f".toList]).1 = [] ∧
    ((push hash0 fs0 init0 ok0 "acme/resnet".toList ["f".toList]).2 =
        Except.error PushError.invalidRef ∨
     (push hash0 fs0 init0 ok0 "acme/resnet".toList ["f".toList]).2 =
        Except.error PushError.explicitTagRequired) :=
  push_no_colon_rejected hash0 fs0 init0 ok0 "acme/resnet".toList ["f".toList] (by decide)

/-- C10: a reference with a trailing colon (`org/name:`) parses with the
empty tag — not an error and not the `latest` default — and such a
reference passes the push tool's explicit-tag check: the push proceeds to
read its files and issue the init call (with the empty tag). -/
theorem parse_empty_tag_passes_check {org name : List Char}
    (horg : org ≠ []) (hname : name ≠ [])
    (ho1 : '/' ∉ org) (hn1 : '/' ∉ name)
    (ho2 : ':' ∉ org) (hn2 : ':' ∉ name) :
    parseModelRef (org ++ '/' :: (name ++ [':'])) = Except.ok ⟨org, name, []⟩ ∧
    ∀ (hash : List Nat → List Char) (fs : List Char → List Nat)
      (initFn : List FileDescriptor → PushInit) (uploadOk : List Char → Bool)
      (files : List (List Char)),
      ∃ rest : List PushEvent,
        (push hash fs initFn uploadOk (org ++ '/' :: (name ++ [':'])) files).1 =
          files.map PushEvent.readFile ++
            PushEvent.initCall (pushDescriptors hash fs files) :: rest := by
  have hparse : parseModelRef (org ++ '/' :: (name ++ ':' :: ([] : List Char))) =
      Except.ok ⟨org, name, []⟩ :=
    parseModelRef_tagged horg hname ho1 hn1 ho2 hn2 (by simp)
  refine ⟨hparse, ?_⟩
  intro hash fs initFn uploadOk files
  have hq : push hash fs initFn uploadOk (org ++ '/' :: (name ++ [':'])) files =
      pushChecked hash fs initFn uploadOk [] files :=
    push_tagged hash fs initFn uploadOk horg hname ho1 hn1 ho2 hn2 (by simp) files
  rw [hq]
  simp only [pushChecked]
  exact ⟨_, rfl⟩

/-- C10 witness: `o/n:` parses with the empty tag and the push proceeds to
the read and init phases. -/
theorem parse_empty_tag_passes_check_witness :
    parseModelRef ("o".toList ++ '/' :: ("n".toList ++ [':'])) =
      Except.ok ⟨"o".toList, "n".toList, []⟩ ∧
    ∃ rest : List PushEvent,
      (push hash0 fs0 init0 ok0 ("o".toList ++ '/' :: ("n".toList ++ [':']))
          ["f".toList]).1 =
        ["f".toList].map PushEvent.readFile ++
          PushEvent.initCall (pushDescriptors hash0 fs0 ["f".toList]) :: rest := by
  have h := @parse_empty_tag_passes_check "o".toList "n".toList
    (by decide) (by decide) (by decide) (by decide) (by decide) (by decide)
  exact ⟨h.1, h.2 hash0 fs0 init0 ok0 ["f".toList]⟩

theorem pullFiles_mismatch (hash : List Nat → List Char)
    (fetch : List Char → FetchResult) (destDir : List Char)
    (pre post : List PullFile) (bad : PullFile) (badBytes : List Nat)
    (hpre : ∀ f ∈ pre, fileOk hash fetch f)
    (hfetch : fetch bad.download_url = FetchResult.ok badBytes)
    (hbad : hash badBytes ≠ bad.sha256) :
    pullFiles hash fetch destDir (pre ++ bad :: post) =
      (pre.flatMap (fileEvents hash fetch destDir) ++ [PullEvent.fetch bad.download_url],
       Except.error (PullError.checksumMismatch bad.filename bad.sha256 (hash badBytes))) := by
  induction pre with
  | nil =>
    simp only [List.nil_append, List.flatMap_nil]
    simp [pullFiles, hfetch, hbad]
  | cons f rest ih =>
    obtain ⟨b, hb, hh⟩ := hpre f (List.mem_cons_self f rest)
    have ihh := ih (fun g hg => hpre g (List.mem_cons_of_mem f hg))
    have hstep : (f :: rest) ++ bad :: post = f :: (rest ++ bad :: post) := rfl
    rw [hstep]
    simp only [pullFiles, hb, if_pos hh, ihh, List.flatMap_cons]
    simp [fileEvents, hb, hh]

theorem write_mem_flatMap (hash : List Nat → List Char)
    (fetch : List Char → FetchResult) (destDir : List Char)
    (pre : List PullFile) (f : PullFile) (hf : f ∈ pre) (b : List Nat)
    (hb : fetch f.download_url = FetchResult.ok b) (hh : hash b = f.sha256) :
    PullEvent.write (destDir ++ '/' :: f.filename) b ∈
      pre.flatMap (fileEvents hash fetch destDir) := by
  apply List.mem_flatMap.2
  refine ⟨f, hf, ?_⟩
  simp [fileEvents, hb, hh]

/-- C1: in the pull loop, each file's digest is computed on the fetched
bytes and compared with the plan's declared digest before any write: when
every file matches, each file is fetched then written to
`destDir/filename` in order and the pull succeeds; at the first mismatch
the pull aborts with an error carrying the filename, the expected digest
and the actual digest, the mismatched file is not written, no later plan
file is fetched or written, and the writes of the earlier files remain in
the trace. -/
theorem pull_digest_verification (hash : List Nat → List Char)
    (fetch : List Char → FetchResult) (destDir : List Char)
    (plan pre post : List PullFile) (bad : PullFile) (badBytes : List Nat) :
    ((∀ f ∈ plan, fileOk hash fetch f) →
      pullFiles hash fetch destDir plan =
        (plan.flatMap (fileEvents hash fetch destDir), Except.ok ())) ∧
    ((∀ f ∈ pre, fileOk hash fetch f) →
      fetch bad.download_url = FetchResult.ok badBytes →
      hash badBytes ≠ bad.sha256 →
      pullFiles hash fetch destDir (pre ++ bad :: post) =
        (pre.flatMap (fileEvents hash fetch destDir) ++ [PullEvent.fetch bad.download_url],
         Except.error (PullError.checksumMismatch bad.filename bad.sha256 (hash badBytes))) ∧
      ∀ f ∈ pre, ∃ b, fetch f.download_url = FetchResult.ok b ∧
        PullEvent.write (destDir ++ '/' :: f.filename) b ∈
          (pullFiles hash fetch destDir (pre ++ bad :: post)).1) := by
  constructor
  · intro h
    exact pullFiles_success hash fetch destDir plan h
  · intro hpre hfetch hbad
    have hmain := pullFiles_mismatch hash fetch destDir pre post bad badBytes hpre hfetch hbad
    refine ⟨hmain, ?_⟩
    intro f hf
    obtain ⟨b, hb, hh⟩ := hpre f hf
    refine ⟨b, hb, ?_⟩
    rw [hmain]
    exact List.mem_append_left _ (write_mem_flatMap hash fetch destDir pre f hf b hb hh)

/-- C1 witness: a one-file matching plan succeeds; a plan with a matching
file followed by a mismatching one aborts with the checksum error after
the good file's write. -/
theorem pull_digest_verification_witness :
    pullFiles hashW fetchW ['d'] [gfile] =
      ([gfile].flatMap (fileEvents hashW fetchW ['d']), Except.ok ()) ∧
    pullFiles hashW fetchW ['d'] ([gfile] ++ badfile :: []) =
      ([gfile].flatMap (fileEvents hashW fetchW ['d']) ++
        [PullEvent.fetch badfile.download_url],
       Except.error (PullError.checksumMismatch badfile.filename badfile.sha256
        (hashW [2]))) := by
  have hgood : ∀ f ∈ [gfile], fileOk hashW fetchW f := by
    intro f hf
    have hfe : f = gfile := by
      cases List.mem_singleton.1 hf
      rfl
    subst hfe
    exact ⟨[1], by decide, by decide⟩
  have h := pull_digest_verification hashW fetchW ['d'] [gfile] [gfile] [] badfile [2]
  exact ⟨h.1 hgood, (h.2 hgood (by decide) (by decide)).1⟩

theorem matched_isSome (hash : List Nat → List Char) (fs : List Char → List Nat)
    (files : List (List Char)) (u : UploadTarget)
    (h : ∃ p ∈ files, basename p = u.filename) :
    ((files.map (mkFileInfo hash fs)).find? (fun f => f.filename == u.filename)).isSome := by
  obtain ⟨p, hp, hb⟩ := h
  apply List.find?_isSome.2
  refine ⟨mkFileInfo hash fs p, List.mem_map_of_mem _ hp, ?_⟩
  show (basename p == u.filename) = true
  exact beq_iff_eq.2 hb

theorem countP_reads_zero (files : List (List Char)) :
    (files.map PushEvent.readFile).countP isUploadEvent = 0 := by
  induction files with
  | nil => rfl
  | cons p ps ih =>
    have h1 : isUploadEvent (PushEvent.readFile p) = false := rfl
    simp [List.map_cons, List.countP_cons, h1, ih]

theorem countUploads_trace (files : List (List Char)) (ds : List FileDescriptor)
    (fi : List FileInfo) (ups : List UploadTarget) (pid tagv : List Char) :
    countUploads (files.map PushEvent.readFile ++
      PushEvent.initCall ds ::
        (ups.map (fun u => PushEvent.uploadBlob u.upload_url (matchedData fi u)) ++
          [PushEvent.finalizeCall pid tagv])) = ups.length := by
  have h3 : (ups.map (fun u => PushEvent.uploadBlob u.upload_url
      (matchedData fi u))).countP isUploadEvent = ups.length := by
    induction ups with
    | nil => rfl
    | cons u us ih =>
      have hu : isUploadEvent (PushEvent.uploadBlob u.upload_url (matchedData fi u)) = true := rfl
      simp [List.map_cons, List.countP_cons, hu, ih]
  have h1 : isUploadEvent (PushEvent.initCall ds) = false := rfl
  have h2 : ([PushEvent.finalizeCall pid tagv] : List PushEvent).countP isUploadEvent = 0 := rfl
  unfold countUploads
  rw [List.countP_append, List.countP_cons, List.countP_append, countP_reads_zero,
    h1, h2, h3]
  simp

/-- C2: for a push with an explicit tag whose init response returns one
matching upload target per requested file and whose uploads all succeed,
the effect trace is exactly: all file reads, then one init call carrying
one descriptor per file, then one blob upload per returned target in
order, then one finalize call; and whenever any blob upload fails (or a
target cannot be matched), the finalize call never appears in the trace. -/
theorem push_three_phase_order (hash : List Nat → List Char) (fs : List Char → List Nat)
    (initFn : List FileDescriptor → PushInit) (uploadOk : List Char → Bool)
    {org name tag : List Char}
    (horg : org ≠ []) (hname : name ≠ [])
    (ho1 : '/' ∉ org) (hn1 : '/' ∉ name)
    (ho2 : ':' ∉ org) (hn2 : ':' ∉ name) (ht : ':' ∉ tag)
    (files : List (List Char)) :
    ((∀ u ∈ (initFn (pushDescriptors hash fs files)).uploads,
        ∃ p ∈ files, basename p = u.filename) →
     (∀ u ∈ (initFn (pushDescriptors hash fs files)).uploads,
        uploadOk u.upload_url = true) →
      push hash fs initFn uploadOk (org ++ '/' :: (name ++ ':' :: tag)) files =
        (files.map PushEvent.readFile ++
          PushEvent.initCall (pushDescriptors hash fs files) ::
            ((initFn (pushDescriptors hash fs files)).uploads.map
                (fun u => PushEvent.uploadBlob u.upload_url
                  (matchedData (files.map (mkFileInfo hash fs)) u)) ++
              [PushEvent.finalizeCall (initFn (pushDescriptors hash fs files)).push_id tag]),
         Except.ok ()) ∧
      (pushDescriptors hash fs files).length = files.length ∧
      countUploads
          (push hash fs initFn uploadOk (org ++ '/' :: (name ++ ':' :: tag)) files).1 =
        (initFn (pushDescriptors hash fs files)).uploads.length) ∧
    ((∃ u ∈ (initFn (pushDescriptors hash fs files)).uploads,
        uploadOk u.upload_url = false) →
      hasFinalize
        (push hash fs initFn uploadOk (org ++ '/' :: (name ++ ':' :: tag)) files).1 = false) := by
  have hpush := push_tagged hash fs initFn uploadOk horg hname ho1 hn1 ho2 hn2 ht files
  constructor
  · intro hmatch hok
    have hm' : ∀ u ∈ (initFn ((files.map (mkFileInfo hash fs)).map descriptorOf)).uploads,
        ((files.map (mkFileInfo hash fs)).find? (fun f => f.filename == u.filename)).isSome :=
      fun u hu => matched_isSome hash fs files u (hmatch u hu)
    have hps := pushChecked_success hash fs initFn uploadOk tag files hm' hok
    refine ⟨?_, ?_, ?_⟩
    · rw [hpush]
      exact hps
    · simp [pushDescriptors]
    · rw [hpush, hps]
      exact countUploads_trace files (pushDescriptors hash fs files)
        (files.map (mkFileInfo hash fs))
        (initFn (pushDescriptors hash fs files)).uploads
        (initFn (pushDescriptors hash fs files)).push_id tag
  · intro hex
    obtain ⟨e, he⟩ := uploadLoop_error_of_fail (files.map (mkFileInfo hash fs)) uploadOk
      (initFn ((files.map (mkFileInfo hash fs)).map descriptorOf)).uploads hex
    have hshape := pushChecked_error_shape hash fs initFn uploadOk tag files e he
    rw [hpush]
    exact hshape.1

/-- C2 witness: two files pushed through a registry returning one target
per file — the trace is reads, init, two uploads, finalize in order; with
failing uploads, finalize never appears. -/
theorem push_three_phase_order_witness :
    push hash0 fs0 init0 ok0 ("a".toList ++ '/' :: ("b".toList ++ ':' :: "v1".toList))
        ["d/f1".toList, "d/f2".toList] =
      (["d/f1".toList, "d/f2".toList].map PushEvent.readFile ++
        PushEvent.initCall (pushDescriptors hash0 fs0 ["d/f1".toList, "d/f2".toList]) ::
          ((init0 (pushDescriptors hash0 fs0 ["d/f1".toList, "d/f2".toList])).uploads.map
              (fun u => PushEvent.uploadBlob u.upload_url
                (matchedData (["d/f1".toList, "d/f2".toList].map (mkFileInfo hash0 fs0)) u)) ++
            [PushEvent.finalizeCall
              (init0 (pushDescriptors hash0 fs0 ["d/f1".toList, "d/f2".toList])).push_id
              "v1".toList]),
       Except.ok ()) ∧
    hasFinalize (push hash0 fs0 init0 okFail
        ("a".toList ++ '/' :: ("b".toList ++ ':' :: "v1".toList))
        ["d/f1".toList, "d/f2".toList]).1 = false := by
  constructor
  · exact ((push_three_phase_order hash0 fs0 init0 ok0 (by decide) (by decide) (by decide)
      (by decide) (by decide) (by decide) (by decide) ["d/f1".toList, "d/f2".toList]).1
      (by decide) (by decide)).1
  · exact (push_three_phase_order hash0 fs0 init0 okFail (by decide) (by decide) (by decide)
      (by decide) (by decide) (by decide) (by decide) ["d/f1".toList, "d/f2".toList]).2
      (by decide)

/-- C3 counterexample: with two requested files `f1`, `f2` and an init
response whose upload list omits `f2`, the push completes successfully —
it reads both files, inits with both descriptors, uploads only `f1`'s
bytes, and finalizes with an ok result. No step fails with any
missing-upload-target error, contradicting the claim. -/
theorem push_missing_target_counterexample :
    push hash0 fs0 initOmit ok0 "a/b:v1".toList ["d/f1".toList, "d/f2".toList] =
      ([PushEvent.readFile "d/f1".toList, PushEvent.readFile "d/f2".toList,
        PushEvent.initCall [⟨"f1".toList, 1, ['h']⟩, ⟨"f2".toList, 1, ['h']⟩],
        PushEvent.uploadBlob "u1".toList [0],
        PushEvent.finalizeCall ['p'] "v1".toList],
       Except.ok ()) := by
  rfl

theorem hasFinalize_success_trace (A : List PushEvent) (e : PushEvent)
    (B : List PushEvent) (pid tagv : List Char) :
    hasFinalize (A ++ e :: (B ++ [PushEvent.finalizeCall pid tagv])) = true := by
  unfold hasFinalize
  rw [List.any_append, List.any_cons, List.any_append]
  simp [isFinalizeEvent, List.any_cons]

/-- C3 (amended): when the init response omits a requested filename (but
every listed target matches a local file and uploads succeed), no later
step fails — the push silently skips the omitted file's upload, performs
one upload per listed target only, and completes with finalize; the
upload phase's failure (`No local file found`) occurs only in the
converse situation, when a listed target's filename matches no local
file. -/
theorem push_omitted_target_behavior (hash : List Nat → List Char) (fs : List Char → List Nat)
    (initFn : List FileDescriptor → PushInit) (uploadOk : List Char → Bool)
    {org name tag : List Char}
    (horg : org ≠ []) (hname : name ≠ [])
    (ho1 : '/' ∉ org) (hn1 : '/' ∉ name)
    (ho2 : ':' ∉ org) (hn2 : ':' ∉ name) (ht : ':' ∉ tag)
    (files : List (List Char)) :
    ((∀ u ∈ (initFn (pushDescriptors hash fs files)).uploads,
        ∃ p ∈ files, basename p = u.filename) →
     (∀ u ∈ (initFn (pushDescriptors hash fs files)).uploads,
        uploadOk u.upload_url = true) →
     (∃ p ∈ files, ∀ u ∈ (initFn (pushDescriptors hash fs files)).uploads,
        u.filename ≠ basename p) →
      (push hash fs initFn uploadOk (org ++ '/' :: (name ++ ':' :: tag)) files).2 =
        Except.ok () ∧
      hasFinalize
        (push hash fs initFn uploadOk (org ++ '/' :: (name ++ ':' :: tag)) files).1 = true ∧
      countUploads
          (push hash fs initFn uploadOk (org ++ '/' :: (name ++ ':' :: tag)) files).1 =
        (initFn (pushDescriptors hash fs files)).uploads.length) ∧
    (∀ (good : List UploadTarget) (bad : UploadTarget) (rest : List UploadTarget),
      (initFn (pushDescriptors hash fs files)).uploads = good ++ bad :: rest →
      (∀ u ∈ good, ∃ p ∈ files, basename p = u.filename) →
      (∀ u ∈ good, uploadOk u.upload_url = true) →
      (∀ p ∈ files, basename p ≠ bad.filename) →
      (push hash fs initFn uploadOk (org ++ '/' :: (name ++ ':' :: tag)) files).2 =
        Except.error (PushError.noLocalFile bad.filename)) := by
  have hpush := push_tagged hash fs initFn uploadOk horg hname ho1 hn1 ho2 hn2 ht files
  constructor
  · intro hmatch hok homit
    have hm' : ∀ u ∈ (initFn ((files.map (mkFileInfo hash fs)).map descriptorOf)).uploads,
        ((files.map (mkFileInfo hash fs)).find? (fun f => f.filename == u.filename)).isSome :=
      fun u hu => matched_isSome hash fs files u (hmatch u hu)
    have hps := pushChecked_success hash fs initFn uploadOk tag files hm' hok
    refine ⟨?_, ?_, ?_⟩
    · rw [hpush, hps]
    · rw [hpush, hps]
      exact hasFinalize_success_trace _ _ _ _ _
    · rw [hpush, hps]
      exact countUploads_trace files (pushDescriptors hash fs files)
        (files.map (mkFileInfo hash fs))
        (initFn (pushDescriptors hash fs files)).uploads
        (initFn (pushDescriptors hash fs files)).push_id tag
  · intro good bad rest hdecomp hgood hgok hnomatch
    have hbadnone : (files.map (mkFileInfo hash fs)).find?
        (fun f => f.filename == bad.filename) = none := by
      apply List.find?_eq_none.2
      intro f hf
      obtain ⟨p, hp, hfp⟩ := List.mem_map.1 hf
      subst hfp
      intro hbeq
      exact hnomatch p hp (beq_iff_eq.1 hbeq)
    have hgood' : ∀ u ∈ good,
        ((files.map (mkFileInfo hash fs)).find? (fun f => f.filename == u.filename)).isSome :=
      fun u hu => matched_isSome hash fs files u (hgood u hu)
    have hul := uploadLoop_unmatched (files.map (mkFileInfo hash fs)) uploadOk
      good bad rest hgood' hgok hbadnone
    rw [← hdecomp] at hul
    rw [hpush]
    exact (pushChecked_error_shape hash fs initFn uploadOk tag files _ hul).2

/-- C3 amended-claim witness: the omission scenario completes successfully
with one upload, and a target matching no local file fails with the
`No local file found` error. -/
theorem push_omitted_target_behavior_witness :
    ((push hash0 fs0 initOmit ok0 ("a".toList ++ '/' :: ("b".toList ++ ':' :: "v1".toList))
        ["d/f1".toList, "d/f2".toList]).2 = Except.ok () ∧
     hasFinalize (push hash0 fs0 initOmit ok0
        ("a".toList ++ '/' :: ("b".toList ++ ':' :: "v1".toList))
        ["d/f1".toList, "d/f2".toList]).1 = true ∧
     countUploads (push hash0 fs0 initOmit ok0
          ("a".toList ++ '/' :: ("b".toList ++ ':' :: "v1".toList))
          ["d/f1".toList, "d/f2".toList]).1 =
       (initOmit (pushDescriptors hash0 fs0 ["d/f1".toList, "d/f2".toList])).uploads.length) ∧
    (push hash0 fs0 initBad ok0 ("a".toList ++ '/' :: ("b".toList ++ ':' :: "v1".toList))
        ["d/f1".toList, "d/f2".toList]).2 =
      Except.error (PushError.noLocalFile "zz".toList) := by
  constructor
  · exact (push_omitted_target_behavior hash0 fs0 initOmit ok0 (by decide) (by decide)
      (by decide) (by decide) (by decide) (by decide) (by decide)
      ["d/f1".toList, "d/f2".toList]).1 (by decide) (by decide)
      ⟨"d/f2".toList, by decide, by decide⟩
  · exact (push_omitted_target_behavior hash0 fs0 initBad ok0 (by decide) (by decide)
      (by decide) (by decide) (by decide) (by decide) (by decide)
      ["d/f1".toList, "d/f2".toList]).2 [] ⟨"zz".toList, "u9".toList⟩ [] rfl
      (by decide) (by decide) (by decide)

theorem pushDescriptors_filenames (hash : List Nat → List Char) (fs : List Char → List Nat)
    (files : List (List Char)) :
    (pushDescriptors hash fs files).map FileDescriptor.filename = files.map basename := by
  induction files with
  | nil => rfl
  | cons p ps ih =>
    have hh : (pushDescriptors hash fs (p :: ps)).map FileDescriptor.filename =
        basename p :: (pushDescriptors hash fs ps).map FileDescriptor.filename := rfl
    rw [hh, ih, List.map_cons]

theorem matchedData_first (hash : List Nat → List Char) (fs : List Char → List Nat)
    (l1 l2 l3 : List (List Char)) (p1 p2 : List Char)
    (hfirst : ∀ q ∈ l1, basename q ≠ basename p2)
    (u : UploadTarget) (hfil : u.filename = basename p2)
    (hdup : basename p1 = basename p2) :
    matchedData ((l1 ++ p1 :: (l2 ++ p2 :: l3)).map (mkFileInfo hash fs)) u = fs p1 := by
  unfold matchedData
  rw [find?_mkFileInfo]
  have hl1 : l1.find? (fun p => basename p == u.filename) = none := by
    apply List.find?_eq_none.2
    intro q hq hbeq
    exact hfirst q hq (by rw [← hfil]; exact beq_iff_eq.1 hbeq)
  have hp1 : (fun p => basename p == u.filename) p1 = true := by
    show (basename p1 == u.filename) = true
    rw [hfil]
    exact beq_iff_eq.2 hdup
  have hstep : (p1 :: (l2 ++ p2 :: l3)).find? (fun p => basename p == u.filename) =
      some p1 := List.find?_cons_of_pos _ hp1
  have hfind : (l1 ++ p1 :: (l2 ++ p2 :: l3)).find? (fun p => basename p == u.filename) =
      some p1 := by
    rw [List.find?_append, hl1, hstep]
    rfl
  rw [hfind]
  rfl

/-- C9: push identifies local files by basename only — with two distinct
input paths sharing a basename, the init request carries duplicate
filename descriptors (the shared basename appears at least twice), and
every upload target bearing that basename is matched to the first file in
input order with it, so that first file's bytes are uploaded for each
such target. -/
theorem push_basename_collision (hash : List Nat → List Char) (fs : List Char → List Nat)
    (initFn : List FileDescriptor → PushInit) (uploadOk : List Char → Bool)
    {org name tag : List Char}
    (horg : org ≠ []) (hname : name ≠ [])
    (ho1 : '/' ∉ org) (hn1 : '/' ∉ name)
    (ho2 : ':' ∉ org) (hn2 : ':' ∉ name) (ht : ':' ∉ tag)
    (l1 l2 l3 : List (List Char)) (p1 p2 : List Char)
    (hdup : basename p1 = basename p2) (hne : p1 ≠ p2)
    (hfirst : ∀ q ∈ l1, basename q ≠ basename p2)
    (hmatch : ∀ u ∈ (initFn (pushDescriptors hash fs (l1 ++ p1 :: (l2 ++ p2 :: l3)))).uploads,
      ∃ p ∈ l1 ++ p1 :: (l2 ++ p2 :: l3), basename p = u.filename)
    (hok : ∀ u ∈ (initFn (pushDescriptors hash fs (l1 ++ p1 :: (l2 ++ p2 :: l3)))).uploads,
      uploadOk u.upload_url = true) :
    2 ≤ ((pushDescriptors hash fs (l1 ++ p1 :: (l2 ++ p2 :: l3))).map
        FileDescriptor.filename).count (basename p2) ∧
    ∀ u ∈ (initFn (pushDescriptors hash fs (l1 ++ p1 :: (l2 ++ p2 :: l3)))).uploads,
      u.filename = basename p2 →
      PushEvent.uploadBlob u.upload_url (fs p1) ∈
        (push hash fs initFn uploadOk (org ++ '/' :: (name ++ ':' :: tag))
          (l1 ++ p1 :: (l2 ++ p2 :: l3))).1 := by
  constructor
  · rw [pushDescriptors_filenames]
    rw [List.map_append, List.map_cons, List.map_append, List.map_cons]
    rw [List.count_append, List.count_cons, List.count_append, List.count_cons]
    have h1 : (basename p1 == basename p2) = true := beq_iff_eq.2 hdup
    have h2 : (basename p2 == basename p2) = true := beq_iff_eq.2 rfl
    rw [h1, h2]
    simp only [if_true]
    omega
  · intro u hu hfil
    have hpush := push_tagged hash fs initFn uploadOk horg hname ho1 hn1 ho2 hn2 ht
      (l1 ++ p1 :: (l2 ++ p2 :: l3))
    have hm' : ∀ v ∈ (initFn (((l1 ++ p1 :: (l2 ++ p2 :: l3)).map
        (mkFileInfo hash fs)).map descriptorOf)).uploads,
        (((l1 ++ p1 :: (l2 ++ p2 :: l3)).map (mkFileInfo hash fs)).find?
          (fun f => f.filename == v.filename)).isSome :=
      fun v hv => matched_isSome hash fs (l1 ++ p1 :: (l2 ++ p2 :: l3)) v (hmatch v hv)
    have hps := pushChecked_success hash fs initFn uploadOk tag
      (l1 ++ p1 :: (l2 ++ p2 :: l3)) hm' hok
    rw [hpush, hps]
    have hdata := matchedData_first hash fs l1 l2 l3 p1 p2 hfirst u hfil hdup
    apply List.mem_append_right
    apply List.mem_cons_of_mem
    apply List.mem_append_left
    apply List.mem_map.2
    refine ⟨u, hu, ?_⟩
    rw [hdata]

/-- C9 witness: paths `a/x` and `b/x` share basename `x`; the descriptors
list the basename twice and both upload targets receive `a/x`'s bytes. -/
theorem push_basename_collision_witness :
    2 ≤ ((pushDescriptors hash0 fs0
        ([] ++ "a/x".toList :: ([] ++ "b/x".toList :: []))).map
        FileDescriptor.filename).count (basename "b/x".toList) ∧
    PushEvent.uploadBlob "u1".toList (fs0 "a/x".toList) ∈
      (push hash0 fs0 init2 ok0 ("o".toList ++ '/' :: ("m".toList ++ ':' :: "v1".toList))
        ([] ++ "a/x".toList :: ([] ++ "b/x".toList :: []))).1 ∧
    PushEvent.uploadBlob "u2".toList (fs0 "a/x".toList) ∈
      (push hash0 fs0 init2 ok0 ("o".toList ++ '/' :: ("m".toList ++ ':' :: "v1".toList))
        ([] ++ "a/x".toList :: ([] ++ "b/x".toList :: []))).1 := by
  have h := @push_basename_collision hash0 fs0 init2 ok0 "o".toList "m".toList "v1".toList
    (by decide) (by decide) (by decide)
    (by decide) (by decide) (by decide) (by decide) [] [] [] "a/x".toList "b/x".toList
    (by decide) (by decide) (by decide) (by decide) (by decide)
  exact ⟨h.1, h.2 ⟨"x".toList, "u1".toList⟩ (by decide) (by decide),
    h.2 ⟨"x".toList, "u2".toList⟩ (by decide) (by decide)⟩
